import Mathlib

/-!
Verification of the generic-object-storage library: a shallow embedding of
its two provider adapters (Amazon S3 and Google Cloud Storage) and of the
Go standard-library string/path functions they rely on, together with
theorems about path handling, pagination, error classification and the
store/fetch round trip.

Go strings are byte sequences; they are modelled as `List Char` with one
character per byte (every string of interest here is ASCII).  `[]byte`
contents are `List Nat`, `time.Time` stamps are `Int`.  Provider SDK
clients are modelled as explicit response functions or finite response
scripts passed to each operation.
-/

namespace ObjectStorage

/-- A Go string, one `Char` per byte. -/
abbrev GoStr := List Char

/-- Splitting on the path separator, as `strings.Split(p, "/")` does:
the components of `p`, with empty components for leading, trailing or
repeated separators. -/
def splitSlash : GoStr → List GoStr
  | [] => [[]]
  | c :: rest =>
    match splitSlash rest with
    | [] => [[]]
    | h :: t => if c = '/' then [] :: h :: t else (c :: h) :: t

/-- Joining components with the path separator, as `strings.Join(l, "/")`
does. -/
def interSlash : List GoStr → GoStr
  | [] => []
  | [x] => x
  | x :: y :: xs => x ++ '/' :: interSlash (y :: xs)

/-- One element-processing step of Go `path.Clean`: empty and "." elements
are dropped; ".." pops the previous element when one is available, is kept
at the front of a relative path, and is dropped at the root of a rooted
path; every other element is appended. -/
def cleanStep (rooted : Bool) (acc : List GoStr) (c : GoStr) : List GoStr :=
  if c = [] ∨ c = ['.'] then acc
  else if c = ['.', '.'] then
    if acc ≠ [] ∧ acc.getLast? ≠ some ['.', '.'] then acc.dropLast
    else if rooted then acc
    else acc ++ [['.', '.']]
  else acc ++ [c]

/-- The output assembly of Go `path.Clean`: the processed elements joined
with "/", a leading "/" restored for a rooted path, and an empty result
becoming "." . -/
def cleanCore (rooted : Bool) (parts : List GoStr) : GoStr :=
  let out := (if rooted then ['/'] else []) ++ interSlash parts
  if out = [] then ['.'] else out

/-- Go `path.Clean`: repeated separators, "." elements and resolvable ".."
elements are removed; an empty result becomes "." (or "/" when the path was
rooted). -/
def clean (p : GoStr) : GoStr :=
  if p = [] then ['.']
  else
    let rooted := p.head? == some '/'
    cleanCore rooted ((splitSlash p).foldl (cleanStep rooted) [])

/-- Go `path.Join` (the `pathutil.Join` the adapters call): the elements
from the first non-empty one on are joined with "/" and cleaned; all-empty
input yields the empty string. -/
def pathJoin (elems : List GoStr) : GoStr :=
  match elems.dropWhile List.isEmpty with
  | [] => []
  | es => clean (interSlash es)

/-- `cleanPrefix` from utility.go: `strings.Trim(p, "/")` removes leading
and trailing slash characters. -/
def cleanPrefix (p : GoStr) : GoStr :=
  ((p.dropWhile fun c => c == '/').reverse.dropWhile fun c => c == '/').reverse

/-- The byte index of the first occurrence of `sub` in `s`, as Go
`strings.Index` computes it; `none` when `sub` does not occur. -/
def indexOfSub (s sub : GoStr) : Option Nat :=
  if s.take sub.length = sub then some 0
  else
    match s with
    | [] => none
    | _ :: t => (indexOfSub t sub).map (· + 1)

/-- `strings.Replace(s, old, new, 1)` for a non-empty `old`: the first
occurrence of `old`, when there is one, is replaced by `new`. -/
def replaceOnce (s old new : GoStr) : GoStr :=
  match indexOfSub s old with
  | none => s
  | some i => s.take i ++ new ++ s.drop (i + old.length)

/-- `removePrefixFromObjectPath` from utility.go: for a non-empty `pfx` the
first occurrence of `pfx ++ "/"` in `path` is removed; an empty `pfx`
leaves the path unchanged.  (The Go parameter is named `prefix`.) -/
def removePrefixFromObjectPath (pfx path : GoStr) : GoStr :=
  if pfx = [] then path
  else replaceOnce path (pfx ++ ['/']) []

/-- `containsSubstring` from the S3 adapter: every starting index
`i ≤ len s - len sub` is scanned for a match of `sub`. -/
def containsSubstring : GoStr → GoStr → Bool
  | [], sub => sub.isEmpty
  | c :: t, sub =>
    if sub.length ≤ (c :: t).length then
      ((c :: t).take sub.length == sub) || containsSubstring t sub
    else false

/-- The function `contains` from the S3 adapter. -/
def contains (s sub : GoStr) : Bool :=
  decide (sub.length ≤ s.length) &&
    (s == sub || (decide (0 < s.length) && containsSubstring s sub))

/-- `isS3NotFoundError` applied to a present (non-nil) error: its string
representation is searched for the three not-found markers.  The Go
function additionally returns false on a nil error; the model only
classifies errors that did occur. -/
def isS3NotFoundError (errStr : GoStr) : Bool :=
  contains errStr "NoSuchKey".toList || contains errStr "NotFound".toList ||
    contains errStr "404".toList

/-- Whether Go `net/url.shouldEscape` escapes byte `c` in mode
`encodePathSegment`, the mode `url.PathEscape` uses. -/
def shouldEscapePathSegment (c : Char) : Bool :=
  if ('a' ≤ c ∧ c ≤ 'z') ∨ ('A' ≤ c ∧ c ≤ 'Z') ∨ ('0' ≤ c ∧ c ≤ '9') then false
  else if c = '-' ∨ c = '_' ∨ c = '.' ∨ c = '~' then false
  else if c = '$' ∨ c = '&' ∨ c = '+' ∨ c = ',' ∨ c = '/' ∨ c = ':' ∨
      c = ';' ∨ c = '=' ∨ c = '?' ∨ c = '@' then
    decide (c = '/' ∨ c = ';' ∨ c = ',' ∨ c = '?')
  else true

/-- An uppercase hexadecimal digit, as Go's `upperhex` table. -/
def upperHexDigit (n : Nat) : Char :=
  "0123456789ABCDEF".toList.getD n '0'

/-- Go `url.PathEscape`: every byte flagged by `shouldEscape` in
path-segment mode is written as "%XX" with uppercase hexadecimal. -/
def urlPathEscape (s : GoStr) : GoStr :=
  (s.map fun c =>
    if shouldEscapePathSegment c then
      ['%', upperHexDigit (c.toNat / 16), upperHexDigit (c.toNat % 16)]
    else [c]).flatten

/-- `Metadata` from storage.go. -/
structure Metadata where
  Name : GoStr
  Version : GoStr
deriving DecidableEq

/-- `Object` from storage.go. -/
structure Object where
  Meta : Metadata
  Path : GoStr
  Content : List Nat
  LastModified : Int
deriving DecidableEq

/-- The surface of the `app-error` library the adapters use: `GetAppErr`
records the provider error text, the operation's error-code identifier and
an HTTP code; `SetHTTPCode` replaces the HTTP code. -/
structure AppError where
  errMsg : GoStr
  code : String
  httpCode : Nat
deriving DecidableEq

/-- Constructor of an `AppError` (the context argument is dropped: it plays
no role in the value built). -/
def GetAppErr (errMsg : GoStr) (code : String) (httpCode : Nat) : AppError :=
  ⟨errMsg, code, httpCode⟩

/-- `AppError.SetHTTPCode`. -/
def AppError.SetHTTPCode (e : AppError) (c : Nat) : AppError :=
  { e with httpCode := c }

/-- The provider's key/value state: object keys to stored byte contents. -/
def Store := GoStr → Option (List Nat)

/-- `S3Backend` (its configuration fields; the SDK client, uploader and
downloader handles are modelled per operation as explicit response
functions). -/
structure S3Backend where
  Bucket : GoStr
  Prefix : GoStr

/-- `GoogleCSBackend` (its configuration; the bucket handle is modelled per
operation as an explicit response function). -/
structure GoogleCSBackend where
  Prefix : GoStr

/-- The text of the `storage.ErrObjectNotExist` sentinel. -/
def errObjectNotExist : GoStr := "storage: object doesn't exist".toList

/-! ### The request keys each adapter operation computes

Each definition restates the key expression of one operation's SDK call in
the source, and is used by the operation's model below. -/

/-- The key `S3Backend.GetObject` requests: `pathutil.Join(b.Prefix, path)`. -/
def S3Backend.getObjectKey (b : S3Backend) (path : GoStr) : GoStr :=
  pathJoin [b.Prefix, path]

/-- The key `S3Backend.PutObject` uploads to: `pathutil.Join(b.Prefix, path)`. -/
def S3Backend.putObjectKey (b : S3Backend) (path : GoStr) : GoStr :=
  pathJoin [b.Prefix, path]

/-- The key `S3Backend.DeleteObject` deletes: `pathutil.Join(b.Prefix, path)`. -/
def S3Backend.deleteObjectKey (b : S3Backend) (path : GoStr) : GoStr :=
  pathJoin [b.Prefix, path]

/-- The `CopySource` value `S3Backend.CopyObject` sends:
`url.PathEscape(pathutil.Join(b.Bucket, b.Prefix, srcPath))`. -/
def S3Backend.copySource (b : S3Backend) (srcPath : GoStr) : GoStr :=
  urlPathEscape (pathJoin [b.Bucket, b.Prefix, srcPath])

/-- The destination key `S3Backend.CopyObject` sends:
`pathutil.Join(b.Prefix, dstPath)`. -/
def S3Backend.copyDstKey (b : S3Backend) (dstPath : GoStr) : GoStr :=
  pathJoin [b.Prefix, dstPath]

/-- The listing prefix `S3Backend.GetObjects` sends and also strips from the
returned keys: `pathutil.Join(b.Prefix, prefix)`. -/
def S3Backend.listFullPrefix (b : S3Backend) (pfx : GoStr) : GoStr :=
  pathJoin [b.Prefix, pfx]

/-- The object name `GoogleCSBackend.GetObject` requests:
`pathutil.Join(b.Prefix, path)`. -/
def GoogleCSBackend.getObjectKey (b : GoogleCSBackend) (path : GoStr) : GoStr :=
  pathJoin [b.Prefix, path]

/-- The object name `GoogleCSBackend.PutObject` writes:
`pathutil.Join(b.Prefix, path)`. -/
def GoogleCSBackend.putObjectKey (b : GoogleCSBackend) (path : GoStr) : GoStr :=
  pathJoin [b.Prefix, path]

/-- The object name `GoogleCSBackend.DeleteObject` deletes:
`pathutil.Join(b.Prefix, path)`. -/
def GoogleCSBackend.deleteObjectKey (b : GoogleCSBackend) (path : GoStr) : GoStr :=
  pathJoin [b.Prefix, path]

/-- The listing prefix `GoogleCSBackend.GetObjects` sends and strips:
`pathutil.Join(b.Prefix, prefix)`. -/
def GoogleCSBackend.listFullPrefix (b : GoogleCSBackend) (pfx : GoStr) : GoStr :=
  pathJoin [b.Prefix, pfx]

/-- The source object name `GoogleCSBackend.CopyObject` hands the client:
`srcPath` itself, with no prefix joined on. -/
def GoogleCSBackend.copySrcName (b : GoogleCSBackend) (srcPath : GoStr) : GoStr :=
  srcPath

/-- The destination object name `GoogleCSBackend.CopyObject` hands the
client: `dstPath` itself, with no prefix joined on. -/
def GoogleCSBackend.copyDstName (b : GoogleCSBackend) (dstPath : GoStr) : GoStr :=
  dstPath

/-! ### The S3 adapter's operations -/

/-- A successful `s3.GetObjectOutput`, with the body already read: the Go
code's `io.ReadAll(s3Result.Body)` succeeding is part of the client
response model. -/
structure S3GetObjectOutput where
  Body : List Nat
  LastModified : Option Int
deriving DecidableEq

/-- `S3Backend.GetObject`: the client maps the requested key to its
response.  An error response is wrapped as an internal (500) error and
tightened to 404 when `isS3NotFoundError` holds; a success yields the
object with its content and, when present, the LastModified stamp. -/
def S3Backend.GetObject (b : S3Backend)
    (client : GoStr → Except GoStr S3GetObjectOutput) (path : GoStr) :
    Object × Option AppError :=
  let object : Object :=
    { Meta := ⟨[], []⟩, Path := path, Content := [], LastModified := 0 }
  match client (b.getObjectKey path) with
  | .error err =>
    let appErr := GetAppErr err "ERR_OS_S3_2002" 500
    let appErr := if isS3NotFoundError err then appErr.SetHTTPCode 404 else appErr
    (object, some appErr)
  | .ok s3Result =>
    let object := { object with Content := s3Result.Body }
    let object :=
      match s3Result.LastModified with
      | some t => { object with LastModified := t }
      | none => object
    (object, none)

/-- `S3Backend.PutObject`: a successful upload writes `content` at the put
key; an uploader error is returned as an internal (500) error with no
not-found classification, and the store is unchanged. -/
def S3Backend.PutObject (b : S3Backend) (st : Store) (path : GoStr)
    (content : List Nat) (uploadErr : Option GoStr) : Store × Option AppError :=
  match uploadErr with
  | some err => (st, some (GetAppErr err "ERR_OS_S3_2003" 500))
  | none => (fun k => if k = b.putObjectKey path then some content else st k, none)

/-- `S3Backend.DeleteObject`: the client maps the deleted key to an optional
error; an error is 500, tightened to 404 by `isS3NotFoundError`. -/
def S3Backend.DeleteObject (b : S3Backend) (client : GoStr → Option GoStr)
    (path : GoStr) : Option AppError :=
  match client (b.deleteObjectKey path) with
  | some err =>
    let appErr := GetAppErr err "ERR_OS_S3_2004" 500
    some (if isS3NotFoundError err then appErr.SetHTTPCode 404 else appErr)
  | none => none

/-- `S3Backend.CopyObject`: the client maps the escaped copy source and the
destination key to an optional error; an error is 500, tightened to 404 by
`isS3NotFoundError`. -/
def S3Backend.CopyObject (b : S3Backend) (client : GoStr → GoStr → Option GoStr)
    (srcPath dstPath : GoStr) : Option AppError :=
  match client (b.copySource srcPath) (b.copyDstKey dstPath) with
  | some err =>
    let appErr := GetAppErr err "ERR_OS_S3_2005" 500
    some (if isS3NotFoundError err then appErr.SetHTTPCode 404 else appErr)
  | none => none

/-- One object entry of an S3 list page (`s3.Object`). -/
structure S3ListEntry where
  Key : GoStr
  LastModified : Int
deriving DecidableEq

/-- One `s3.ListObjectsOutput` page. -/
structure ListPage where
  Contents : List S3ListEntry
  IsTruncated : Option Bool
deriving DecidableEq

/-- How a listing run ends: normally; with a provider error, keeping the
objects accumulated so far; with the out-of-bounds index the Go code's
`Contents[len(Contents)-1]` takes on an empty truncated page; or with the
finite response script exhausted while the loop still wants a page. -/
inductive ListOutcome where
  | ok (objects : List Object)
  | err (objects : List Object) (appErr : AppError)
  | panicked
  | exhausted (objects : List Object)
deriving DecidableEq

/-- The objects built from one S3 page's `Contents`: the path is the key
with the full listing prefix removed, and the content is left empty. -/
def pageObjects (fullPrefix : GoStr) (contents : List S3ListEntry) : List Object :=
  contents.map fun o =>
    { Meta := ⟨[], []⟩, Path := removePrefixFromObjectPath fullPrefix o.Key,
      Content := [], LastModified := o.LastModified }

/-- The pagination loop of `S3Backend.GetObjects` over a finite script of
client responses, one per issued `ListObjects` request.  It returns the
outcome together with the trace of `Marker` values the answered requests
carried (`none` is the unset marker of the first request). -/
def s3ListLoop (fullPrefix : GoStr) (marker : Option GoStr) (acc : List Object) :
    List (Except GoStr ListPage) → ListOutcome × List (Option GoStr)
  | [] => (.exhausted acc, [])
  | .error err :: _ =>
    (.err acc
      (if isS3NotFoundError err
        then (GetAppErr err "ERR_OS_S3_2001" 500).SetHTTPCode 404
        else GetAppErr err "ERR_OS_S3_2001" 500), [marker])
  | .ok page :: rest =>
    if page.IsTruncated = some true then
      match page.Contents.getLast? with
      | none => (.panicked, [marker])
      | some lastEntry =>
        let next := s3ListLoop fullPrefix (some lastEntry.Key)
          (acc ++ pageObjects fullPrefix page.Contents) rest
        (next.1, marker :: next.2)
    else (.ok (acc ++ pageObjects fullPrefix page.Contents), [marker])

/-- `S3Backend.GetObjects`: the listing prefix is joined onto the configured
prefix and the pagination loop starts with an unset marker and no
accumulated objects. -/
def S3Backend.GetObjects (b : S3Backend) (pfx : GoStr)
    (resps : List (Except GoStr ListPage)) : ListOutcome × List (Option GoStr) :=
  s3ListLoop (b.listFullPrefix pfx) none [] resps

/-! ### The GCS adapter's operations -/

/-- A successful GCS object fetch: the attributes' `Updated` stamp and the
reader's content (`Attrs`, `NewReader`, `io.ReadAll` and `Close` succeeding
as one exchange; any stage failing is the error case). -/
structure GCSObjectData where
  Updated : Int
  Content : List Nat
deriving DecidableEq

/-- `GoogleCSBackend.GetObject`: an error is wrapped as an internal (500)
error, tightened to 404 exactly when its text equals the
`storage.ErrObjectNotExist` sentinel text. -/
def GoogleCSBackend.GetObject (b : GoogleCSBackend)
    (client : GoStr → Except GoStr GCSObjectData) (path : GoStr) :
    Object × Option AppError :=
  let object : Object :=
    { Meta := ⟨[], []⟩, Path := path, Content := [], LastModified := 0 }
  match client (b.getObjectKey path) with
  | .error err =>
    let appErr := GetAppErr err "ERR_OS_GCS_1002" 500
    let appErr := if err = errObjectNotExist then appErr.SetHTTPCode 404 else appErr
    (object, some appErr)
  | .ok attrs =>
    ({ object with LastModified := attrs.Updated, Content := attrs.Content }, none)

/-- `GoogleCSBackend.PutObject`: a write-stage error is 500, tightened to
404 when its text equals the not-exist sentinel; a close-stage error is
always 500; success commits `content` at the put key. -/
def GoogleCSBackend.PutObject (b : GoogleCSBackend) (st : Store) (path : GoStr)
    (content : List Nat) (writeErr closeErr : Option GoStr) :
    Store × Option AppError :=
  match writeErr with
  | some err =>
    let appErr := GetAppErr err "ERR_OS_GCS_1003" 500
    let appErr := if err = errObjectNotExist then appErr.SetHTTPCode 404 else appErr
    (st, some appErr)
  | none =>
    match closeErr with
    | some err => (st, some (GetAppErr err "ERR_OS_GCS_1003" 500))
    | none => (fun k => if k = b.putObjectKey path then some content else st k, none)

/-- `GoogleCSBackend.DeleteObject`. -/
def GoogleCSBackend.DeleteObject (b : GoogleCSBackend)
    (client : GoStr → Option GoStr) (path : GoStr) : Option AppError :=
  match client (b.deleteObjectKey path) with
  | some err =>
    let appErr := GetAppErr err "ERR_OS_GCS_1004" 500
    some (if err = errObjectNotExist then appErr.SetHTTPCode 404 else appErr)
  | none => none

/-- `GoogleCSBackend.CopyObject`: the source and destination object names
handed to the client are `srcPath` and `dstPath` themselves, the configured
prefix not joined on. -/
def GoogleCSBackend.CopyObject (b : GoogleCSBackend)
    (client : GoStr → GoStr → Option GoStr) (srcPath dstPath : GoStr) :
    Option AppError :=
  match client (b.copySrcName srcPath) (b.copyDstName dstPath) with
  | some err =>
    let appErr := GetAppErr err "ERR_OS_GCS_1005" 500
    some (if err = errObjectNotExist then appErr.SetHTTPCode 404 else appErr)
  | none => none

/-- One `it.Next()` outcome of the GCS object iterator. -/
inductive IterStep where
  | item (name : GoStr) (updated : Int)
  | done
  | fail (err : GoStr)
deriving DecidableEq

/-- The iterator loop of `GoogleCSBackend.GetObjects` over a finite script
of iterator steps: `done` ends the listing, a failure returns the objects
accumulated so far with the classified error, and an item is appended with
the full prefix stripped from its name and empty content. -/
def gcsListLoop (fullPrefix : GoStr) (acc : List Object) :
    List IterStep → ListOutcome
  | [] => .exhausted acc
  | .done :: _ => .ok acc
  | .fail err :: _ =>
    let appErr := GetAppErr err "ERR_OS_GCS_1001" 500
    let appErr := if err = errObjectNotExist then appErr.SetHTTPCode 404 else appErr
    .err acc appErr
  | .item nm upd :: rest =>
    gcsListLoop fullPrefix
      (acc ++ [{ Meta := ⟨[], []⟩,
                 Path := removePrefixFromObjectPath fullPrefix nm,
                 Content := [], LastModified := upd }]) rest

/-- `GoogleCSBackend.GetObjects`. -/
def GoogleCSBackend.GetObjects (b : GoogleCSBackend) (pfx : GoStr)
    (steps : List IterStep) : ListOutcome :=
  gcsListLoop (b.listFullPrefix pfx) [] steps

/-! ### Key/value provider models for the round-trip law -/

/-- A provider answering single-object S3 fetches from a key/value store: a
present key yields its bytes, an absent one a NoSuchKey error. -/
def kvS3GetClient (st : Store) : GoStr → Except GoStr S3GetObjectOutput :=
  fun k =>
    match st k with
    | some c => .ok { Body := c, LastModified := none }
    | none => .error "NoSuchKey: The specified key does not exist.".toList

/-- A provider answering single-object GCS fetches from a key/value store:
a present key yields its bytes, an absent one the not-exist sentinel. -/
def kvGCSGetClient (st : Store) : GoStr → Except GoStr GCSObjectData :=
  fun k =>
    match st k with
    | some c => .ok { Updated := 0, Content := c }
    | none => .error errObjectNotExist

/-! ### Lemmas about the string and path utilities -/

theorem splitSlash_ne_nil (s : GoStr) : splitSlash s ≠ [] := by
  cases s with
  | nil => simp [splitSlash]
  | cons c rest =>
    simp only [splitSlash]
    split
    · simp
    · split <;> simp

theorem splitSlash_append (a b : GoStr) :
    splitSlash (a ++ '/' :: b) = splitSlash a ++ splitSlash b := by
  induction a with
  | nil =>
    obtain ⟨y, bs, hybs⟩ := List.exists_cons_of_ne_nil (splitSlash_ne_nil b)
    simp only [List.nil_append, splitSlash, hybs]
    simp
  | cons c t ih =>
    obtain ⟨x, ts, hxts⟩ := List.exists_cons_of_ne_nil (splitSlash_ne_nil t)
    simp only [List.cons_append, splitSlash]
    rw [show splitSlash (t.append ('/' :: b)) = splitSlash t ++ splitSlash b from ih,
      hxts]
    simp only [List.cons_append]
    by_cases hc : c = '/' <;> simp [hc]

theorem interSlash_snoc (l : List GoStr) (b : GoStr) (h : l ≠ []) :
    interSlash (l ++ [b]) = interSlash l ++ '/' :: b := by
  induction l with
  | nil => exact absurd rfl h
  | cons x xs ih =>
    cases xs with
    | nil => rfl
    | cons y ys =>
      have h2 := ih (by simp)
      have e1 : (x :: y :: ys) ++ [b] = x :: y :: (ys ++ [b]) := by simp
      rw [e1]
      rw [show interSlash (x :: y :: (ys ++ [b]))
            = x ++ '/' :: interSlash (y :: (ys ++ [b])) from rfl]
      rw [show interSlash (x :: y :: ys) = x ++ '/' :: interSlash (y :: ys) from rfl]
      rw [show (y :: (ys ++ [b])) = (y :: ys) ++ [b] by simp, h2]
      simp

theorem interSlash_snoc_ne_nil (l : List GoStr) (b : GoStr) (hb : b ≠ []) :
    interSlash (l ++ [b]) ≠ [] := by
  cases l with
  | nil => simpa [interSlash]
  | cons x xs =>
    rw [interSlash_snoc _ _ (by simp)]
    simp

theorem cleanStep_plain (rooted : Bool) (acc : List GoStr) (c : GoStr)
    (h0 : c ≠ []) (h1 : c ≠ ['.']) (h2 : c ≠ ['.', '.']) :
    cleanStep rooted acc c = acc ++ [c] := by
  simp [cleanStep, h0, h1, h2]

theorem cleanStep_empty (rooted : Bool) (acc : List GoStr) :
    cleanStep rooted acc [] = acc := by
  simp [cleanStep]

theorem cleanCore_ne_nil (rooted : Bool) (parts : List GoStr) :
    cleanCore rooted parts ≠ [] := by
  simp only [cleanCore]
  split <;> split <;> simp_all

theorem clean_ne_nil (p : GoStr) : clean p ≠ [] := by
  unfold clean
  split
  · simp
  · exact cleanCore_ne_nil _ _

theorem cleanCore_snoc (rooted : Bool) (parts : List GoStr) (h : GoStr)
    (hne : interSlash parts ≠ []) :
    cleanCore rooted (parts ++ [h]) = cleanCore rooted parts ++ '/' :: h := by
  have hp : parts ≠ [] := by
    intro e
    exact hne (by simp [e, interSlash])
  have hout1 : (if rooted then ['/'] else []) ++ interSlash parts ≠ [] := by
    cases rooted <;> simp [hne]
  simp only [cleanCore]
  rw [interSlash_snoc _ _ hp]
  rw [if_neg (by cases rooted <;> simp), if_neg hout1]
  simp

theorem pathJoin_pair_ne_nil (x y : GoStr) (hy : y ≠ []) : pathJoin [x, y] ≠ [] := by
  unfold pathJoin
  split
  · next heq =>
    rw [List.dropWhile_eq_nil_iff] at heq
    exact absurd (List.isEmpty_iff.mp (heq y (by simp))) hy
  · exact clean_ne_nil _

theorem pathJoin_pair_of_ne_nil (p x : GoStr) (hp : p ≠ []) :
    pathJoin [p, x] = clean (p ++ '/' :: x) := by
  have h1 : p.isEmpty = false := by
    cases p with
    | nil => exact absurd rfl hp
    | cons c t => rfl
  unfold pathJoin
  rw [List.dropWhile_cons, h1]
  simp [interSlash]

theorem clean_test_split (c : Char) (p' : GoStr) :
    clean ((c :: p') ++ '/' :: "test/hello.txt".toList)
      = clean ((c :: p') ++ '/' :: "test/".toList) ++ '/' :: "hello.txt".toList := by
  have hsp1 : splitSlash "test/hello.txt".toList
      = ["test".toList, "hello.txt".toList] := by decide
  have hsp2 : splitSlash "test/".toList = ["test".toList, []] := by decide
  have hhd : ((c :: p') ++ '/' :: "test/hello.txt".toList).head? = some c := rfl
  have hhd2 : ((c :: p') ++ '/' :: "test/".toList).head? = some c := rfl
  unfold clean
  rw [if_neg (by simp), if_neg (by simp)]
  rw [hhd, hhd2]
  rw [splitSlash_append, splitSlash_append, hsp1, hsp2]
  dsimp only
  rw [List.foldl_append, List.foldl_append]
  set R := (some c == some '/') with hR
  set A := (splitSlash (c :: p')).foldl (cleanStep R) [] with hA
  simp only [List.foldl_cons, List.foldl_nil]
  rw [cleanStep_plain R A _ (by decide) (by decide) (by decide)]
  rw [cleanStep_plain R (A ++ ["test".toList]) _ (by decide) (by decide) (by decide)]
  rw [cleanStep_empty]
  exact cleanCore_snoc R (A ++ ["test".toList]) _
    (interSlash_snoc_ne_nil _ _ (by decide))

theorem pathJoin_test_split (pfx : GoStr) :
    pathJoin [pfx, "test/hello.txt".toList]
      = pathJoin [pfx, "test/".toList] ++ '/' :: "hello.txt".toList := by
  by_cases hp : pfx = []
  · subst hp
    decide
  · obtain ⟨c, p', rfl⟩ := List.exists_cons_of_ne_nil hp
    rw [pathJoin_pair_of_ne_nil _ _ (by simp), pathJoin_pair_of_ne_nil _ _ (by simp)]
    exact clean_test_split c p'

theorem removePrefix_self_slash (q r : GoStr) (hq : q ≠ []) :
    removePrefixFromObjectPath q (q ++ '/' :: r) = r := by
  have hsplit : q ++ '/' :: r = (q ++ ['/']) ++ r := by simp
  have hidx : indexOfSub ((q ++ ['/']) ++ r) (q ++ ['/']) = some 0 := by
    unfold indexOfSub
    rw [if_pos (List.take_left _ _)]
  unfold removePrefixFromObjectPath replaceOnce
  rw [if_neg hq, hsplit, hidx]
  simp only [List.take_zero, List.nil_append, Nat.zero_add]
  exact List.drop_left _ _

theorem containsSubstring_iff_isInfix (s sub : GoStr) :
    containsSubstring s sub = true ↔ sub <:+: s := by
  induction s with
  | nil =>
    show sub.isEmpty = true ↔ sub <:+: []
    simp [List.isEmpty_iff, List.infix_nil]
  | cons c t ih =>
    simp only [containsSubstring]
    by_cases hlen : sub.length ≤ (c :: t).length
    · rw [if_pos hlen]
      simp only [Bool.or_eq_true, beq_iff_eq, ih]
      rw [List.infix_cons_iff]
      constructor
      · rintro (h | h)
        · exact Or.inl (List.prefix_iff_eq_take.mpr h.symm)
        · exact Or.inr h
      · rintro (h | h)
        · exact Or.inl (List.prefix_iff_eq_take.mp h).symm
        · exact Or.inr h
    · rw [if_neg hlen]
      exact ⟨fun h => absurd h (by simp),
        fun hinf => absurd hinf.length_le hlen⟩

theorem contains_iff_isInfix (s sub : GoStr) :
    contains s sub = true ↔ sub <:+: s := by
  unfold contains
  simp only [Bool.and_eq_true, Bool.or_eq_true, decide_eq_true_eq, beq_iff_eq,
    containsSubstring_iff_isInfix]
  constructor
  · rintro ⟨hlen, h | ⟨hpos, hinf⟩⟩
    · exact h ▸ List.infix_refl s
    · exact hinf
  · intro hinf
    refine ⟨hinf.length_le, ?_⟩
    by_cases hs : s = sub
    · exact Or.inl hs
    · refine Or.inr ⟨?_, hinf⟩
      cases s with
      | nil =>
        rw [List.infix_nil] at hinf
        exact absurd hinf.symm hs
      | cons x xs => simp

theorem isS3NotFoundError_iff (e : GoStr) :
    isS3NotFoundError e = true ↔
      ("NoSuchKey".toList <:+: e ∨ "NotFound".toList <:+: e ∨
        "404".toList <:+: e) := by
  unfold isS3NotFoundError
  simp [contains_iff_isInfix, or_assoc]

theorem indexOfSub_eq_none_iff (s sub : GoStr) :
    indexOfSub s sub = none ↔ ¬ sub <:+: s := by
  induction s with
  | nil =>
    unfold indexOfSub
    rcases eq_or_ne sub [] with rfl | hsub
    · simp
    · rw [if_neg (by simpa using Ne.symm hsub)]
      simp [List.infix_nil, hsub]
  | cons c t ih =>
    unfold indexOfSub
    by_cases hpre : (c :: t).take sub.length = sub
    · rw [if_pos hpre]
      have hin : sub <:+: c :: t :=
        (List.prefix_iff_eq_take.mpr hpre.symm).isInfix
      simp [hin]
    · rw [if_neg hpre]
      simp only [Option.map_eq_none', ih]
      rw [List.infix_cons_iff]
      constructor
      · intro hn
        rintro (hp | hi)
        · exact hpre (List.prefix_iff_eq_take.mp hp).symm
        · exact hn hi
      · exact fun hn hi => hn (Or.inr hi)

theorem indexOfSub_spec (s sub : GoStr) (i : Nat) (h : indexOfSub s sub = some i) :
    sub <+: s.drop i ∧ ∀ j, j < i → ¬ sub <+: s.drop j := by
  induction s generalizing i with
  | nil =>
    unfold indexOfSub at h
    split at h
    · next hpre =>
      injection h with h0
      subst h0
      refine ⟨?_, fun j hj => absurd hj (by omega)⟩
      simp only [List.take_nil] at hpre
      simp [← hpre]
    · simp at h
  | cons c t ih =>
    unfold indexOfSub at h
    split at h
    · next hpre =>
      injection h with h0
      subst h0
      exact ⟨List.prefix_iff_eq_take.mpr hpre.symm,
        fun j hj => absurd hj (by omega)⟩
    · next hpre =>
      rcases Option.map_eq_some'.mp h with ⟨i', hi', rfl⟩
      obtain ⟨h1, h2⟩ := ih i' hi'
      constructor
      · simpa using h1
      · intro j hj
        cases j with
        | zero =>
          intro hp
          exact hpre (List.prefix_iff_eq_take.mp hp).symm
        | succ j' =>
          have := h2 j' (by omega)
          simpa using this

theorem removePrefix_of_absent (pfx k : GoStr) (hp : pfx ≠ [])
    (h : ¬ (pfx ++ ['/']) <:+: k) : removePrefixFromObjectPath pfx k = k := by
  unfold removePrefixFromObjectPath replaceOnce
  rw [if_neg hp, (indexOfSub_eq_none_iff _ _).mpr h]

/-! ### Lemmas about the listing loops -/

/-- A response script an S3 client can produce for one complete listing:
every page before the last is truncated with non-empty contents, and the
last page is not truncated. -/
def properPages : List ListPage → Bool
  | [] => false
  | [pg] => pg.IsTruncated != some true
  | pg :: pg2 :: rest =>
    (pg.IsTruncated == some true) && decide (pg.Contents ≠ []) &&
      properPages (pg2 :: rest)

/-- A run of pages each of which keeps the listing loop going. -/
def continuingPages : List ListPage → Bool
  | [] => true
  | pg :: rest =>
    (pg.IsTruncated == some true) && decide (pg.Contents ≠ []) &&
      continuingPages rest

/-- Response scripts on which every truncated page has non-empty contents,
so the loop's last-element index stays in bounds. -/
def safeResps (resps : List (Except GoStr ListPage)) : Bool :=
  resps.all fun r =>
    match r with
    | .error _ => true
    | .ok pg => decide (pg.IsTruncated = some true → pg.Contents ≠ [])

theorem s3ListLoop_proper (fp : GoStr) (pages : List ListPage)
    (h : properPages pages = true) :
    ∀ (mk : Option GoStr) (acc : List Object)
      (extra : List (Except GoStr ListPage)),
      s3ListLoop fp mk acc (pages.map Except.ok ++ extra)
        = (.ok (acc ++ (pages.map fun pg => pageObjects fp pg.Contents).flatten),
           mk :: pages.dropLast.map fun pg =>
             pg.Contents.getLast?.map S3ListEntry.Key) := by
  induction pages with
  | nil => simp [properPages] at h
  | cons pg rest ih =>
    intro mk acc extra
    cases rest with
    | nil =>
      simp only [properPages, bne_iff_ne, ne_eq] at h
      simp only [List.map_cons, List.map_nil, List.nil_append, List.cons_append,
        s3ListLoop]
      rw [if_neg h]
      simp
    | cons pg2 rest2 =>
      simp only [properPages, Bool.and_eq_true, beq_iff_eq,
        decide_eq_true_eq] at h
      obtain ⟨⟨htr, hne⟩, hrest⟩ := h
      obtain ⟨lastE, hL⟩ :=
        Option.isSome_iff_exists.mp (List.getLast?_isSome.mpr hne)
      have hshape : (pg :: pg2 :: rest2).map Except.ok ++ extra
          = Except.ok pg :: ((pg2 :: rest2).map Except.ok ++ extra) := by simp
      rw [hshape, s3ListLoop, if_pos htr, hL]
      dsimp only
      rw [ih hrest (some lastE.Key) (acc ++ pageObjects fp pg.Contents) extra]
      simp [List.dropLast_cons₂, hL, List.append_assoc]

theorem s3ListLoop_error (fp : GoStr) (pages : List ListPage)
    (h : continuingPages pages = true) :
    ∀ (mk : Option GoStr) (acc : List Object) (e : GoStr)
      (rest : List (Except GoStr ListPage)),
      s3ListLoop fp mk acc (pages.map Except.ok ++ Except.error e :: rest)
        = (.err (acc ++ (pages.map fun pg => pageObjects fp pg.Contents).flatten)
              (GetAppErr e "ERR_OS_S3_2001"
                (if isS3NotFoundError e then 404 else 500)),
           mk :: pages.map fun pg =>
             pg.Contents.getLast?.map S3ListEntry.Key) := by
  induction pages with
  | nil =>
    intro mk acc e rest
    simp only [List.map_nil, List.nil_append, s3ListLoop]
    cases hnf : isS3NotFoundError e <;>
      simp [hnf, GetAppErr, AppError.SetHTTPCode]
  | cons pg rest2 ih =>
    intro mk acc e rest
    simp only [continuingPages, Bool.and_eq_true, beq_iff_eq,
      decide_eq_true_eq] at h
    obtain ⟨⟨htr, hne⟩, hrest⟩ := h
    obtain ⟨lastE, hL⟩ :=
      Option.isSome_iff_exists.mp (List.getLast?_isSome.mpr hne)
    have hshape : (pg :: rest2).map Except.ok ++ Except.error e :: rest
        = Except.ok pg :: (rest2.map Except.ok ++ Except.error e :: rest) := by
      simp
    rw [hshape, s3ListLoop, if_pos htr, hL]
    dsimp only
    rw [ih hrest (some lastE.Key) (acc ++ pageObjects fp pg.Contents) e rest]
    simp [hL, List.append_assoc]

theorem gcsListLoop_items (fp : GoStr) (items : List (GoStr × Int)) :
    ∀ (acc : List Object) (tail : List IterStep),
      gcsListLoop fp acc ((items.map fun en => IterStep.item en.1 en.2) ++ tail)
        = gcsListLoop fp
            (acc ++ items.map fun en =>
              { Meta := ⟨[], []⟩, Path := removePrefixFromObjectPath fp en.1,
                Content := [], LastModified := en.2 }) tail := by
  induction items with
  | nil =>
    intro acc tail
    simp
  | cons en its ih =>
    intro acc tail
    have hshape : ((en :: its).map fun x => IterStep.item x.1 x.2) ++ tail
        = IterStep.item en.1 en.2
            :: ((its.map fun x => IterStep.item x.1 x.2) ++ tail) := by
      simp
    rw [hshape, gcsListLoop, ih]
    simp [List.append_assoc]

theorem s3ListLoop_ok_content (fp : GoStr) (resps : List (Except GoStr ListPage)) :
    ∀ (mk : Option GoStr) (acc objs : List Object),
      (∀ o ∈ acc, o.Content = []) →
      (s3ListLoop fp mk acc resps).1 = ListOutcome.ok objs →
      ∀ o ∈ objs, o.Content = [] := by
  induction resps with
  | nil =>
    intro mk acc objs hacc heq
    simp [s3ListLoop] at heq
  | cons r rest ih =>
    intro mk acc objs hacc heq
    cases r with
    | error e => simp [s3ListLoop] at heq
    | ok page =>
      have haccp : ∀ o ∈ acc ++ pageObjects fp page.Contents, o.Content = [] := by
        intro o ho
        rcases List.mem_append.mp ho with hin | hin
        · exact hacc o hin
        · obtain ⟨entry, _, rfl⟩ := List.mem_map.mp hin
          rfl
      by_cases htr : page.IsTruncated = some true
      · cases hL : page.Contents.getLast? with
        | none =>
          simp only [s3ListLoop, if_pos htr, hL] at heq
          simp at heq
        | some lastE =>
          simp only [s3ListLoop, if_pos htr, hL] at heq
          exact ih (some lastE.Key) _ objs haccp heq
      · simp only [s3ListLoop, if_neg htr, ListOutcome.ok.injEq] at heq
        exact heq ▸ haccp

theorem gcsListLoop_ok_content (fp : GoStr) (steps : List IterStep) :
    ∀ (acc objs : List Object),
      (∀ o ∈ acc, o.Content = []) →
      gcsListLoop fp acc steps = ListOutcome.ok objs →
      ∀ o ∈ objs, o.Content = [] := by
  induction steps with
  | nil =>
    intro acc objs hacc heq
    simp [gcsListLoop] at heq
  | cons s rest ih =>
    intro acc objs hacc heq
    cases s with
    | done =>
      simp only [gcsListLoop, ListOutcome.ok.injEq] at heq
      exact heq ▸ hacc
    | fail e => simp [gcsListLoop] at heq
    | item nm upd =>
      simp only [gcsListLoop] at heq
      refine ih _ objs ?_ heq
      intro o ho
      rcases List.mem_append.mp ho with hin | hin
      · exact hacc o hin
      · simp only [List.mem_singleton] at hin
        subst hin
        rfl

theorem s3ListLoop_no_panic (resps : List (Except GoStr ListPage))
    (h : safeResps resps = true) :
    ∀ (fp : GoStr) (mk : Option GoStr) (acc : List Object),
      (s3ListLoop fp mk acc resps).1 ≠ ListOutcome.panicked := by
  induction resps with
  | nil =>
    intro fp mk acc
    simp [s3ListLoop]
  | cons r rest ih =>
    intro fp mk acc
    simp only [safeResps, List.all_cons, Bool.and_eq_true] at h
    have hrest : safeResps rest = true := by
      simpa [safeResps] using h.2
    cases r with
    | error e => simp [s3ListLoop]
    | ok page =>
      by_cases htr : page.IsTruncated = some true
      · have hne : page.Contents ≠ [] := by
          have := h.1
          simp only [decide_eq_true_eq] at this
          exact this htr
        obtain ⟨lastE, hL⟩ :=
          Option.isSome_iff_exists.mp (List.getLast?_isSome.mpr hne)
        simp only [s3ListLoop, if_pos htr, hL]
        exact ih hrest fp (some lastE.Key) _
      · simp [s3ListLoop, htr]

/-! ### The claims -/

/-- C1: on both adapters, with the provider modelled as a key/value map
updated by the put, a successful `PutObject(path, content)` followed by
`GetObject(path)` returns an Object whose Content is byte-identical to
`content` (and no error), for every configured prefix: both operations
address the provider at the same key `pathutil.Join(Prefix, path)`. -/
theorem c1_put_get_round_trip (b : S3Backend) (g : GoogleCSBackend)
    (st gst : Store) (p q : GoStr) (c d : List Nat) (ue we ce : Option GoStr)
    (hS3 : (b.PutObject st p c ue).2 = none)
    (hGCS : (g.PutObject gst q d we ce).2 = none) :
    ((b.GetObject (kvS3GetClient (b.PutObject st p c ue).1) p).1.Content = c ∧
      (b.GetObject (kvS3GetClient (b.PutObject st p c ue).1) p).2 = none) ∧
    ((g.GetObject (kvGCSGetClient (g.PutObject gst q d we ce).1) q).1.Content = d ∧
      (g.GetObject (kvGCSGetClient (g.PutObject gst q d we ce).1) q).2 = none) := by
  cases ue with
  | some e => simp [S3Backend.PutObject] at hS3
  | none =>
    cases we with
    | some e => simp [GoogleCSBackend.PutObject] at hGCS
    | none =>
      cases ce with
      | some e => simp [GoogleCSBackend.PutObject] at hGCS
      | none =>
        constructor
        · constructor <;>
            simp [S3Backend.PutObject, S3Backend.GetObject, kvS3GetClient,
              S3Backend.getObjectKey, S3Backend.putObjectKey]
        · constructor <;>
            simp [GoogleCSBackend.PutObject, GoogleCSBackend.GetObject,
              kvGCSGetClient, GoogleCSBackend.getObjectKey,
              GoogleCSBackend.putObjectKey]

/-- A witness for C1: concrete prefixes, paths and contents. -/
theorem c1_put_get_round_trip_witness :
    ((S3Backend.GetObject ⟨"bkt".toList, "pfx".toList⟩
        (kvS3GetClient (S3Backend.PutObject ⟨"bkt".toList, "pfx".toList⟩
          (fun _ => none) "a.txt".toList [104, 105] none).1)
        "a.txt".toList).1.Content = [104, 105] ∧
      (S3Backend.GetObject ⟨"bkt".toList, "pfx".toList⟩
        (kvS3GetClient (S3Backend.PutObject ⟨"bkt".toList, "pfx".toList⟩
          (fun _ => none) "a.txt".toList [104, 105] none).1)
        "a.txt".toList).2 = none) ∧
    ((GoogleCSBackend.GetObject ⟨"gp".toList⟩
        (kvGCSGetClient (GoogleCSBackend.PutObject ⟨"gp".toList⟩
          (fun _ => none) "b.txt".toList [1, 2] none none).1)
        "b.txt".toList).1.Content = [1, 2] ∧
      (GoogleCSBackend.GetObject ⟨"gp".toList⟩
        (kvGCSGetClient (GoogleCSBackend.PutObject ⟨"gp".toList⟩
          (fun _ => none) "b.txt".toList [1, 2] none none).1)
        "b.txt".toList).2 = none) :=
  c1_put_get_round_trip ⟨"bkt".toList, "pfx".toList⟩ ⟨"gp".toList⟩
    (fun _ => none) (fun _ => none) "a.txt".toList "b.txt".toList
    [104, 105] [1, 2] none none none rfl rfl

/-- C2: `S3Backend.GetObjects` paginates by marker: over any complete page
script, the first request carries no marker and each later request carries
the last object key of the previous page's Contents; the loop stops at the
first page whose IsTruncated is nil or false (later responses are never
requested); and the result is the in-order concatenation of the Objects
derived from every page's Contents. -/
theorem c2_pagination (b : S3Backend) (lp : GoStr) (pages : List ListPage)
    (extra : List (Except GoStr ListPage)) (h : properPages pages = true) :
    b.GetObjects lp (pages.map Except.ok ++ extra)
      = (.ok ((pages.map fun pg =>
            pageObjects (b.listFullPrefix lp) pg.Contents).flatten),
         none :: pages.dropLast.map fun pg =>
           pg.Contents.getLast?.map S3ListEntry.Key) := by
  unfold S3Backend.GetObjects
  rw [s3ListLoop_proper _ pages h none [] extra]
  simp

/-- A witness for C2: a truncated page followed by a final page. -/
theorem c2_pagination_witness :
    S3Backend.GetObjects ⟨"bkt".toList, "pfx".toList⟩ "d".toList
        (([⟨[⟨"k1".toList, 1⟩], some true⟩,
           ⟨[⟨"k2".toList, 2⟩], none⟩] : List ListPage).map Except.ok ++ [])
      = (.ok ((([⟨[⟨"k1".toList, 1⟩], some true⟩,
            ⟨[⟨"k2".toList, 2⟩], none⟩] : List ListPage).map fun pg =>
            pageObjects (S3Backend.listFullPrefix ⟨"bkt".toList, "pfx".toList⟩
              "d".toList) pg.Contents).flatten),
         none :: ([⟨[⟨"k1".toList, 1⟩], some true⟩,
           ⟨[⟨"k2".toList, 2⟩], none⟩] : List ListPage).dropLast.map fun pg =>
             pg.Contents.getLast?.map S3ListEntry.Key) :=
  c2_pagination ⟨"bkt".toList, "pfx".toList⟩ "d".toList
    [⟨[⟨"k1".toList, 1⟩], some true⟩, ⟨[⟨"k2".toList, 2⟩], none⟩] []
    (by decide)

/-- C3: the GCS copy operation hands srcPath and dstPath to the client
verbatim, while S3 copy and every other GCS and S3 operation joins the
configured prefix onto the path first (S3's copy source also prepends the
bucket and escapes); at a non-empty prefix the two key computations
disagree. -/
theorem c3_copy_keys (g : GoogleCSBackend) (b : S3Backend) (src dst p : GoStr) :
    (g.copySrcName src = src ∧ g.copyDstName dst = dst) ∧
    (b.copySource src = urlPathEscape (pathJoin [b.Bucket, b.Prefix, src]) ∧
      b.copyDstKey dst = pathJoin [b.Prefix, dst]) ∧
    (b.getObjectKey p = pathJoin [b.Prefix, p] ∧
      b.putObjectKey p = pathJoin [b.Prefix, p] ∧
      b.deleteObjectKey p = pathJoin [b.Prefix, p] ∧
      b.listFullPrefix p = pathJoin [b.Prefix, p]) ∧
    (g.getObjectKey p = pathJoin [g.Prefix, p] ∧
      g.putObjectKey p = pathJoin [g.Prefix, p] ∧
      g.deleteObjectKey p = pathJoin [g.Prefix, p] ∧
      g.listFullPrefix p = pathJoin [g.Prefix, p]) ∧
    GoogleCSBackend.copySrcName ⟨"pfx".toList⟩ "a".toList
      ≠ GoogleCSBackend.getObjectKey ⟨"pfx".toList⟩ "a".toList :=
  ⟨⟨rfl, rfl⟩, ⟨rfl, rfl⟩, ⟨rfl, rfl, rfl, rfl⟩, ⟨rfl, rfl, rfl, rfl⟩,
    by decide⟩

/-- C4: an S3 client error on GetObject, GetObjects, DeleteObject or
CopyObject is classified HTTP 404 exactly when its text contains
"NoSuchKey", "NotFound" or "404" as a substring, and HTTP 500 otherwise. -/
theorem c4_s3_not_found_classification (b : S3Backend) (e : GoStr)
    (p src dst lp : GoStr) (rest : List (Except GoStr ListPage)) :
    (b.GetObject (fun _ => Except.error e) p).2
        = some (GetAppErr e "ERR_OS_S3_2002"
            (if "NoSuchKey".toList <:+: e ∨ "NotFound".toList <:+: e ∨
                "404".toList <:+: e then 404 else 500)) ∧
    (b.GetObjects lp (Except.error e :: rest)).1
        = .err [] (GetAppErr e "ERR_OS_S3_2001"
            (if "NoSuchKey".toList <:+: e ∨ "NotFound".toList <:+: e ∨
                "404".toList <:+: e then 404 else 500)) ∧
    b.DeleteObject (fun _ => some e) p
        = some (GetAppErr e "ERR_OS_S3_2004"
            (if "NoSuchKey".toList <:+: e ∨ "NotFound".toList <:+: e ∨
                "404".toList <:+: e then 404 else 500)) ∧
    b.CopyObject (fun _ _ => some e) src dst
        = some (GetAppErr e "ERR_OS_S3_2005"
            (if "NoSuchKey".toList <:+: e ∨ "NotFound".toList <:+: e ∨
                "404".toList <:+: e then 404 else 500)) := by
  have hiff := isS3NotFoundError_iff e
  refine ⟨?_, ?_, ?_, ?_⟩ <;>
  · simp only [← hiff]
    cases hb : isS3NotFoundError e <;>
      simp [S3Backend.GetObject, S3Backend.GetObjects, s3ListLoop,
        S3Backend.DeleteObject, S3Backend.CopyObject, hb,
        GetAppErr, AppError.SetHTTPCode]

/-- C5 counterexample: a GCS write-stage provider error textually equal to
the not-exist sentinel makes PutObject return HTTP 404, not 500. -/
theorem c5_counterexample :
    (GoogleCSBackend.PutObject ⟨"pfx".toList⟩ (fun _ => none) "a.txt".toList
        [1] (some errObjectNotExist) none).2.map AppError.httpCode
      = some 404 ∧ (404 : Nat) ≠ 500 := by
  exact ⟨by decide, by decide⟩

/-- C5 amended: S3 PutObject classifies every uploader error as internal
(HTTP 500); GCS PutObject classifies close-stage errors 500 and write-stage
errors 500 as well — except a write-stage error textually equal to the
`storage.ErrObjectNotExist` sentinel, which it classifies 404. -/
theorem c5_put_error_classification (b : S3Backend) (g : GoogleCSBackend)
    (st gst : Store) (p q : GoStr) (c d : List Nat) (e : GoStr)
    (ce : Option GoStr) :
    (b.PutObject st p c (some e)).2 = some (GetAppErr e "ERR_OS_S3_2003" 500) ∧
    (g.PutObject gst q d (some e) ce).2
      = some (GetAppErr e "ERR_OS_GCS_1003"
          (if e = errObjectNotExist then 404 else 500)) ∧
    (g.PutObject gst q d none (some e)).2
      = some (GetAppErr e "ERR_OS_GCS_1003" 500) := by
  refine ⟨rfl, ?_, rfl⟩
  by_cases he : e = errObjectNotExist <;>
    simp [GoogleCSBackend.PutObject, he, GetAppErr, AppError.SetHTTPCode]

/-- C6 counterexample: with configured prefix "pfx", after storing at path
"test/hello.txt" (provider key `Join("pfx", "test/hello.txt")`), a listing
under "test/" returns an Object whose Path is NOT "test/hello.txt": the
listing prefix is stripped along with the configured prefix. -/
theorem c6_counterexample :
    (S3Backend.GetObjects ⟨"bkt".toList, "pfx".toList⟩ "test/".toList
        [Except.ok ⟨[⟨pathJoin ["pfx".toList, "test/hello.txt".toList], 7⟩],
          some false⟩]).1
      ≠ ListOutcome.ok
          [{ Meta := ⟨[], []⟩, Path := "test/hello.txt".toList,
             Content := [], LastModified := 7 }] := by
  decide

/-- C6 amended: listing strips the whole joined prefix — the configured
prefix joined with the listing argument: after storing at "test/hello.txt",
GetObjects under "test/" returns an Object whose Path is exactly
"hello.txt" (the listing prefix removed too), for every configured
prefix. -/
theorem c6_list_path_stripping (bucket pfx : GoStr) (t : Int) :
    (S3Backend.GetObjects ⟨bucket, pfx⟩ "test/".toList
        [Except.ok ⟨[⟨pathJoin [pfx, "test/hello.txt".toList], t⟩],
          some false⟩]).1
      = ListOutcome.ok
          [{ Meta := ⟨[], []⟩, Path := "hello.txt".toList,
             Content := [], LastModified := t }] := by
  unfold S3Backend.GetObjects S3Backend.listFullPrefix
  rw [s3ListLoop, if_neg (by simp)]
  simp only [pageObjects, List.map_cons, List.map_nil, List.nil_append]
  rw [pathJoin_test_split]
  rw [removePrefix_self_slash _ _ (pathJoin_pair_ne_nil _ _ (by decide))]

/-- C7: a failed page fetch (S3) or iterator step (GCS) ends the listing
immediately: the call returns the classified error together with the
objects accumulated from all earlier successful pages or steps. -/
theorem c7_partial_results (b : S3Backend) (g : GoogleCSBackend)
    (lp glp : GoStr) (pages : List ListPage) (e ge : GoStr)
    (rest : List (Except GoStr ListPage)) (items : List (GoStr × Int))
    (grest : List IterStep) (h : continuingPages pages = true) :
    (b.GetObjects lp (pages.map Except.ok ++ Except.error e :: rest)).1
      = .err ((pages.map fun pg =>
            pageObjects (b.listFullPrefix lp) pg.Contents).flatten)
          (GetAppErr e "ERR_OS_S3_2001"
            (if isS3NotFoundError e then 404 else 500)) ∧
    g.GetObjects glp ((items.map fun en => IterStep.item en.1 en.2)
        ++ IterStep.fail ge :: grest)
      = .err (items.map fun en =>
            { Meta := ⟨[], []⟩,
              Path := removePrefixFromObjectPath (g.listFullPrefix glp) en.1,
              Content := [], LastModified := en.2 })
          (GetAppErr ge "ERR_OS_GCS_1001"
            (if ge = errObjectNotExist then 404 else 500)) := by
  constructor
  · unfold S3Backend.GetObjects
    rw [s3ListLoop_error _ pages h none [] e rest]
    simp
  · unfold GoogleCSBackend.GetObjects
    rw [gcsListLoop_items _ items [] (IterStep.fail ge :: grest), gcsListLoop]
    by_cases hge : ge = errObjectNotExist <;>
      simp [hge, GetAppErr, AppError.SetHTTPCode]

/-- A witness for C7: one successful truncated page, then an error (S3);
one listed item, then a failing iterator step (GCS). -/
theorem c7_partial_results_witness :
    (S3Backend.GetObjects ⟨"bkt".toList, "p".toList⟩ "d".toList
        (([⟨[⟨"k".toList, 1⟩], some true⟩] : List ListPage).map Except.ok
          ++ Except.error "boom".toList :: [])).1
      = .err ((([⟨[⟨"k".toList, 1⟩], some true⟩] : List ListPage).map fun pg =>
            pageObjects (S3Backend.listFullPrefix ⟨"bkt".toList, "p".toList⟩
              "d".toList) pg.Contents).flatten)
          (GetAppErr "boom".toList "ERR_OS_S3_2001"
            (if isS3NotFoundError "boom".toList then 404 else 500)) ∧
    GoogleCSBackend.GetObjects ⟨"q".toList⟩ "d".toList
        ((([("x".toList, (2 : Int))]).map fun en => IterStep.item en.1 en.2)
          ++ IterStep.fail "gcs-broke".toList :: [])
      = .err (([("x".toList, (2 : Int))]).map fun en =>
            { Meta := ⟨[], []⟩,
              Path := removePrefixFromObjectPath
                (GoogleCSBackend.listFullPrefix ⟨"q".toList⟩ "d".toList) en.1,
              Content := [], LastModified := en.2 })
          (GetAppErr "gcs-broke".toList "ERR_OS_GCS_1001"
            (if "gcs-broke".toList = errObjectNotExist then 404 else 500)) :=
  c7_partial_results ⟨"bkt".toList, "p".toList⟩ ⟨"q".toList⟩
    "d".toList "d".toList [⟨[⟨"k".toList, 1⟩], some true⟩]
    "boom".toList "gcs-broke".toList [] [("x".toList, (2 : Int))] []
    (by decide)

/-- C8: every Object returned by a successful GetObjects call, on either
adapter, has empty Content: listing yields metadata only. -/
theorem c8_listing_empty_content (b : S3Backend) (g : GoogleCSBackend)
    (lp glp : GoStr) (resps : List (Except GoStr ListPage))
    (steps : List IterStep) :
    (∀ objs, (b.GetObjects lp resps).1 = ListOutcome.ok objs →
      ∀ o ∈ objs, o.Content = []) ∧
    (∀ objs, g.GetObjects glp steps = ListOutcome.ok objs →
      ∀ o ∈ objs, o.Content = []) := by
  constructor
  · intro objs heq o ho
    exact s3ListLoop_ok_content _ resps none [] objs (by simp) heq o ho
  · intro objs heq o ho
    exact gcsListLoop_ok_content _ steps [] objs (by simp) heq o ho

/-- C9: the marker update's last-element index is taken only on pages whose
IsTruncated is true; a truncated page with empty Contents drives the loop
into the out-of-bounds branch (reachable at a concrete script), and when
every truncated page of the script has non-empty Contents the branch is
never reached. -/
theorem c9_truncated_empty_page :
    (S3Backend.GetObjects ⟨"bkt".toList, "p".toList⟩ []
        [Except.ok ⟨[], some true⟩]).1 = ListOutcome.panicked ∧
    ∀ (resps : List (Except GoStr ListPage)), safeResps resps = true →
      ∀ (fp : GoStr) (mk : Option GoStr) (acc : List Object),
        (s3ListLoop fp mk acc resps).1 ≠ ListOutcome.panicked := by
  constructor
  · decide
  · intro resps h fp mk acc
    exact s3ListLoop_no_panic resps h fp mk acc

/-- C10: `removePrefixFromObjectPath` removes exactly the first occurrence
of `pfx ++ "/"` wherever it appears: the path is unchanged when the prefix
is empty or the substring is absent; `pfx ++ "/" ++ r` maps to `r`; at a
first occurrence index `i` exactly that occurrence is cut out and no
earlier position carries the substring; and a non-leading occurrence is
also removed ("x/a/b" with prefix "a" becomes "x/b"). -/
theorem c10_remove_first_occurrence :
    (∀ k : GoStr, removePrefixFromObjectPath [] k = k) ∧
    (∀ pfx k : GoStr, pfx ≠ [] → ¬ (pfx ++ ['/']) <:+: k →
      removePrefixFromObjectPath pfx k = k) ∧
    (∀ pfx r : GoStr, pfx ≠ [] →
      removePrefixFromObjectPath pfx (pfx ++ '/' :: r) = r) ∧
    (∀ (pfx k : GoStr) (i : Nat), pfx ≠ [] →
      indexOfSub k (pfx ++ ['/']) = some i →
      removePrefixFromObjectPath pfx k
          = k.take i ++ k.drop (i + (pfx.length + 1)) ∧
        (pfx ++ ['/']) <+: k.drop i ∧
        ∀ j, j < i → ¬ (pfx ++ ['/']) <+: k.drop j) ∧
    removePrefixFromObjectPath "a".toList "x/a/b".toList = "x/b".toList := by
  refine ⟨?_, ?_, ?_, ?_, by decide⟩
  · intro k
    simp [removePrefixFromObjectPath]
  · intro pfx k hp hn
    exact removePrefix_of_absent pfx k hp hn
  · intro pfx r hp
    exact removePrefix_self_slash pfx r hp
  · intro pfx k i hp hidx
    obtain ⟨h1, h2⟩ := indexOfSub_spec k (pfx ++ ['/']) i hidx
    refine ⟨?_, h1, h2⟩
    unfold removePrefixFromObjectPath replaceOnce
    rw [if_neg hp, hidx]
    simp

end ObjectStorage
